import Mathlib

/-!
Verification of the Little-Shader-Display repository's core logic against its
natural-language specification.

The development shallowly embeds the relevant Rust functions:
* `FileWatcher` (src/little-shader-display/src/file_watcher.rs) — directory
  change detection over snapshots of modification times.
* `rgba8888_to_rgb565_u8` (src/little-shader-display/src/renderer.rs) —
  RGBA8888 → RGB565 byte conversion.
* `check_and_reload_shaders` (src/little-shader-display/src/main.rs) — shader
  recompilation and render-pipeline recreation, modelled at the level of its
  observable effects (compiler invocations, shader-module creations, pipeline
  creations).
* the per-frame status-vector parse (src/little-shader-display/src/main.rs,
  step 5 of the main loop) — `key:value` comma-separated parsing with
  clamping, where a Rust `unwrap` panic is modelled as `none`.

Machine integers are modelled as `Nat` (`u8` values are below 256, and the
`u16` packing in the pixel converter never overflows for byte inputs, so the
arithmetic agrees exactly).  `f32` values arising in the status-vector parse
are modelled as `ℚ`; the inputs relevant to the claims are small decimal
literals on which `f32` parsing, clamping and division by 10 are exact.
-/

/-! ## Pixel format converter

Embedding of `rgba8888_to_rgb565_u8` from
src/little-shader-display/src/renderer.rs (lines 640–660).  The Rust function
iterates `input.chunks_exact(4)`, so a trailing incomplete chunk is dropped;
the recursion below consumes exactly four bytes per step and stops when fewer
than four remain.  Each step computes
`((r & 0xF8) << 8) | ((g & 0xFC) << 3) | (b >> 3)` in `u16` and pushes the low
byte (`& 0xFF`) and then the high byte (`>> 8`). -/
def rgba8888_to_rgb565_u8 : List Nat → Bool → List Nat
  | c0 :: c1 :: c2 :: _ :: rest, flip_order =>
    let r := if flip_order then c2 else c0
    let g := c1
    let b := if flip_order then c0 else c2
    let rgb565 := ((r &&& 0xF8) <<< 8) ||| ((g &&& 0xFC) <<< 3) ||| (b >>> 3)
    (rgb565 &&& 0xFF) :: (rgb565 >>> 8) :: rgba8888_to_rgb565_u8 rest flip_order
  | _, _ => []

theorem rgba8888_nil (flip : Bool) : rgba8888_to_rgb565_u8 [] flip = [] := rfl

theorem rgba8888_short (l : List Nat) (flip : Bool) (h : l.length < 4) :
    rgba8888_to_rgb565_u8 l flip = [] := by
  match l with
  | [] => rfl
  | [a] => rfl
  | [a, b] => rfl
  | [a, b, c] => rfl
  | a :: b :: c :: d :: t => simp at h; omega

theorem rgba8888_cons (c0 c1 c2 a : Nat) (rest : List Nat) (flip : Bool) :
    rgba8888_to_rgb565_u8 (c0 :: c1 :: c2 :: a :: rest) flip =
      ((((if flip then c2 else c0) &&& 0xF8) <<< 8 |||
        ((c1 &&& 0xFC) <<< 3) ||| ((if flip then c0 else c2) >>> 3)) &&& 0xFF) ::
      ((((if flip then c2 else c0) &&& 0xF8) <<< 8 |||
        ((c1 &&& 0xFC) <<< 3) ||| ((if flip then c0 else c2) >>> 3)) >>> 8) ::
      rgba8888_to_rgb565_u8 rest flip := rfl

/-- C3: for every input byte sequence and flag, including inputs whose length
is not a multiple of 4, the converter's output length equals
`input.length / 4 * 2`: the trailing incomplete pixel contributes nothing. -/
theorem c3_output_length : ∀ (input : List Nat) (flip : Bool),
    (rgba8888_to_rgb565_u8 input flip).length = input.length / 4 * 2
  | [], _ => rfl
  | [a], flip => by rw [rgba8888_short [a] flip (by simp)]; simp
  | [a, b], flip => by rw [rgba8888_short [a, b] flip (by simp)]; simp
  | [a, b, c], flip => by rw [rgba8888_short [a, b, c] flip (by simp)]; simp
  | c0 :: c1 :: c2 :: a :: rest, flip => by
    have ih := c3_output_length rest flip
    rw [rgba8888_cons]
    simp only [List.length_cons, ih]
    omega

/-- Alignment of the converter with `drop`: the output from pixel `i` onward
is the conversion of the input from byte `4*i` onward. -/
theorem rgba8888_drop : ∀ (i : Nat) (input : List Nat) (flip : Bool),
    rgba8888_to_rgb565_u8 (input.drop (4 * i)) flip =
      (rgba8888_to_rgb565_u8 input flip).drop (2 * i) := by
  intro i
  induction i with
  | zero => intro input flip; simp
  | succ i ih =>
    intro input flip
    match input with
    | [] => simp [rgba8888_nil]
    | [a] =>
      rw [List.drop_eq_nil_of_le (by simp; omega), rgba8888_nil,
        rgba8888_short [a] flip (by simp)]
      simp
    | [a, b] =>
      rw [List.drop_eq_nil_of_le (by simp; omega), rgba8888_nil,
        rgba8888_short [a, b] flip (by simp)]
      simp
    | [a, b, c] =>
      rw [List.drop_eq_nil_of_le (by simp; omega), rgba8888_nil,
        rgba8888_short [a, b, c] flip (by simp)]
      simp
    | c0 :: c1 :: c2 :: a :: rest =>
      have h4 : 4 * (i + 1) = (4 * i) + 1 + 1 + 1 + 1 := by omega
      have h2 : 2 * (i + 1) = (2 * i) + 1 + 1 := by omega
      rw [h4, h2, rgba8888_cons]
      simp only [List.drop_succ_cons]
      exact ih rest flip

/-- The two output bytes of pixel `i`: low byte (`& 0xFF`) first, then the
high byte (`>> 8`) of `((r & 0xF8) << 8) | ((g & 0xFC) << 3) | (b >> 3)`. -/
theorem rgba8888_pixel (input : List Nat) (flip : Bool) (i c0 c1 c2 a : Nat)
    (t : List Nat) (h : input.drop (4 * i) = c0 :: c1 :: c2 :: a :: t) :
    (rgba8888_to_rgb565_u8 input flip)[2 * i]? =
      some ((((if flip then c2 else c0) &&& 0xF8) <<< 8 |||
        ((c1 &&& 0xFC) <<< 3) ||| ((if flip then c0 else c2) >>> 3)) &&& 0xFF) ∧
    (rgba8888_to_rgb565_u8 input flip)[2 * i + 1]? =
      some ((((if flip then c2 else c0) &&& 0xF8) <<< 8 |||
        ((c1 &&& 0xFC) <<< 3) ||| ((if flip then c0 else c2) >>> 3)) >>> 8) := by
  have hdrop : (rgba8888_to_rgb565_u8 input flip).drop (2 * i) =
      ((((if flip then c2 else c0) &&& 0xF8) <<< 8 |||
        ((c1 &&& 0xFC) <<< 3) ||| ((if flip then c0 else c2) >>> 3)) &&& 0xFF) ::
      ((((if flip then c2 else c0) &&& 0xF8) <<< 8 |||
        ((c1 &&& 0xFC) <<< 3) ||| ((if flip then c0 else c2) >>> 3)) >>> 8) ::
      rgba8888_to_rgb565_u8 t flip := by
    rw [← rgba8888_drop, h, rgba8888_cons]
  constructor
  · have h0 := List.getElem?_drop (rgba8888_to_rgb565_u8 input flip) (2 * i) 0
    rw [hdrop] at h0
    simpa using h0.symm
  · have h1 := List.getElem?_drop (rgba8888_to_rgb565_u8 input flip) (2 * i) 1
    rw [hdrop] at h1
    simpa using h1.symm

theorem exists_four_bytes (l : List Nat) (h : 4 ≤ l.length) :
    ∃ c0 c1 c2 a t, l = c0 :: c1 :: c2 :: a :: t := by
  match l with
  | c0 :: c1 :: c2 :: a :: t => exact ⟨c0, c1, c2, a, t, rfl⟩
  | [] => simp at h
  | [x] => simp at h
  | [x, y] => simp at h
  | [x, y, z] => simp at h

/-- Bytes at non-alpha positions determine the output: two inputs of the same
length that agree everywhere except possibly at positions `≡ 3 (mod 4)`
convert to the same output. -/
theorem rgba8888_alpha_irrelevant (input input' : List Nat) (flip : Bool)
    (hlen : input.length = input'.length)
    (hagree : ∀ j : Nat, j % 4 = 3 ∨ input[j]? = input'[j]?) :
    rgba8888_to_rgb565_u8 input flip = rgba8888_to_rgb565_u8 input' flip := by
  apply List.ext_getElem?
  intro n
  by_cases hn : n < (rgba8888_to_rgb565_u8 input flip).length
  · have hlenout := c3_output_length input flip
    have hbound : 4 * (n / 2) + 3 < input.length := by
      rw [hlenout] at hn; omega
    have h4 : 4 ≤ (input.drop (4 * (n / 2))).length := by
      rw [List.length_drop]; omega
    have h4' : 4 ≤ (input'.drop (4 * (n / 2))).length := by
      rw [List.length_drop]; omega
    obtain ⟨c0, c1, c2, a, t, hd⟩ := exists_four_bytes _ h4
    obtain ⟨c0', c1', c2', a', t', hd'⟩ := exists_four_bytes _ h4'
    have hbyte : ∀ k : Nat, k < 3 →
        (input.drop (4 * (n / 2)))[k]? = (input'.drop (4 * (n / 2)))[k]? := by
      intro k hk
      rw [List.getElem?_drop, List.getElem?_drop]
      exact (hagree (4 * (n / 2) + k)).resolve_left (by omega)
    have e0 := hbyte 0 (by omega)
    have e1 := hbyte 1 (by omega)
    have e2 := hbyte 2 (by omega)
    rw [hd, hd'] at e0 e1 e2
    simp only [List.getElem?_cons_zero, List.getElem?_cons_succ,
      Option.some.injEq] at e0 e1 e2
    have hp := rgba8888_pixel input flip (n / 2) c0 c1 c2 a t hd
    have hp' := rgba8888_pixel input' flip (n / 2) c0' c1' c2' a' t' hd'
    rcases Nat.mod_two_eq_zero_or_one n with hpar | hpar
    · have hne : n = 2 * (n / 2) := by omega
      rw [hne, hp.1, hp'.1, e0, e1, e2]
    · have hne : n = 2 * (n / 2) + 1 := by omega
      rw [hne, hp.2, hp'.2, e0, e1, e2]
  · have hlo := c3_output_length input flip
    have hlo' := c3_output_length input' flip
    rw [List.getElem?_eq_none (by omega), List.getElem?_eq_none (by omega)]

/-- C2: for every input byte sequence and channel-order flag, each complete
4-byte pixel `(c0, c1, c2, a)` (the pixel starting at byte `4*i`) is mapped to
the 16-bit value `((r & 0xF8) << 8) | ((g & 0xFC) << 3) | (b >> 3)` — with
`r = c0, g = c1, b = c2` when the flag is false and `r = c2, g = c1, b = c0`
when it is true — emitted as two output bytes, low byte first; in particular
the pixel `(0xFF, 0x00, 0x00, 0xFF)` with the flag false yields `[0x00, 0xF8]`,
and the alpha bytes never influence the output. -/
theorem c2_pixel_conversion :
    (∀ (input : List Nat) (flip : Bool) (i c0 c1 c2 a : Nat) (t : List Nat),
      input.drop (4 * i) = c0 :: c1 :: c2 :: a :: t →
      (rgba8888_to_rgb565_u8 input flip)[2 * i]? =
        some ((((if flip then c2 else c0) &&& 0xF8) <<< 8 |||
          ((c1 &&& 0xFC) <<< 3) ||| ((if flip then c0 else c2) >>> 3)) &&& 0xFF) ∧
      (rgba8888_to_rgb565_u8 input flip)[2 * i + 1]? =
        some ((((if flip then c2 else c0) &&& 0xF8) <<< 8 |||
          ((c1 &&& 0xFC) <<< 3) ||| ((if flip then c0 else c2) >>> 3)) >>> 8))
    ∧ rgba8888_to_rgb565_u8 [0xFF, 0x00, 0x00, 0xFF] false = [0x00, 0xF8]
    ∧ (∀ (input input' : List Nat) (flip : Bool),
      input.length = input'.length →
      (∀ j : Nat, j % 4 = 3 ∨ input[j]? = input'[j]?) →
      rgba8888_to_rgb565_u8 input flip = rgba8888_to_rgb565_u8 input' flip) :=
  ⟨rgba8888_pixel, by decide, rgba8888_alpha_irrelevant⟩

/-- Closed instance of `c2_pixel_conversion`: the first pixel of
`[0xFF, 0x00, 0x00, 0xFF]` (flag false) produces low byte `0x00`. -/
theorem c2_pixel_conversion_witness :
    (rgba8888_to_rgb565_u8 [0xFF, 0x00, 0x00, 0xFF] false)[2 * 0]? =
      some ((((if false then 0x00 else 0xFF) &&& 0xF8) <<< 8 |||
        ((0x00 &&& 0xFC) <<< 3) ||| ((if false then 0xFF else 0x00) >>> 3)) &&& 0xFF) :=
  (c2_pixel_conversion.1 [0xFF, 0x00, 0x00, 0xFF] false 0 0xFF 0x00 0x00 0xFF [] rfl).1

/-! ## Directory change detector

Embedding of `FileWatcher` from src/little-shader-display/src/file_watcher.rs.
A directory snapshot (the Rust `HashMap<PathBuf, SystemTime>` built by
`get_file_metadata`) is modelled as an association list from path (`String`)
to modification time (`Nat`); since it comes from a `HashMap`, its keys are
distinct (`SnapshotKeysDistinct`).  Reading the directory is an effect, so
`check_for_changes` and `get_changes` take the freshly read snapshot
(`current_metadata`) as an argument and return the updated watcher. -/

abbrev Snapshot := List (String × Nat)

abbrev SnapshotKeysDistinct (m : Snapshot) : Prop := (m.map Prod.fst).Nodup

def lookupTime : Snapshot → String → Option Nat
  | [], _ => none
  | e :: rest, p => if e.1 = p then some e.2 else lookupTime rest p

/-- The body of the first loop of `check_for_changes`: an entry of the current
snapshot is pushed when it is absent from the previous snapshot (new file) or
present with a different modification time. -/
def changedEntry (prev : Snapshot) (e : String × Nat) : Bool :=
  match lookupTime prev e.1 with
  | some t => t != e.2
  | none => true

/-- `FileWatcher::check_for_changes` as a pure diff: the first loop pushes
current entries that are new or modified, the second pushes previous keys that
disappeared. -/
def changesBetween (prev curr : Snapshot) : List String :=
  (curr.filter (changedEntry prev)).map Prod.fst
    ++ (prev.map Prod.fst).filter (fun p => (lookupTime curr p).isNone)

structure FileWatcher where
  previous_metadata : Snapshot

/-- `FileWatcher::check_for_changes`: diff the held snapshot against the fresh
one, then replace the held snapshot by the fresh one. -/
def FileWatcher.check_for_changes (w : FileWatcher) (current_metadata : Snapshot) :
    List String × FileWatcher :=
  (changesBetween w.previous_metadata current_metadata, ⟨current_metadata⟩)

/-- `FileWatcher::get_changes`: `some` of the change list when it is
non-empty, else `none`. -/
def FileWatcher.get_changes (w : FileWatcher) (current_metadata : Snapshot) :
    Option (List String) × FileWatcher :=
  match w.check_for_changes current_metadata with
  | (changes, w') => (if changes.isEmpty = false then some changes else none, w')

theorem lookupTime_mem {m : Snapshot} {p : String} {t : Nat}
    (h : lookupTime m p = some t) : (p, t) ∈ m := by
  induction m with
  | nil => simp [lookupTime] at h
  | cons e rest ih =>
    by_cases he : e.1 = p
    · simp only [lookupTime, he, if_pos] at h
      cases e with
      | mk q s =>
        obtain rfl : q = p := he
        obtain rfl : s = t := by simpa using h
        exact List.mem_cons_self _ _
    · simp only [lookupTime, he, if_neg, not_false_iff] at h
      exact List.mem_cons_of_mem _ (ih h)

theorem mem_lookupTime {m : Snapshot} {p : String} {t : Nat}
    (hm : SnapshotKeysDistinct m) (h : (p, t) ∈ m) : lookupTime m p = some t := by
  induction m with
  | nil => simp at h
  | cons e rest ih =>
    rcases List.mem_cons.mp h with he | hrest
    · subst he
      simp [lookupTime]
    · have hkeys : e.1 ∉ rest.map Prod.fst :=
        (List.nodup_cons.mp hm).1
      have hne : e.1 ≠ p := by
        intro hcontra
        exact hkeys (hcontra ▸ List.mem_map_of_mem Prod.fst hrest)
      simp only [lookupTime, hne, if_neg, not_false_iff]
      exact ih (List.nodup_cons.mp hm).2 hrest

theorem lookupTime_eq_none {m : Snapshot} {p : String} :
    lookupTime m p = none ↔ p ∉ m.map Prod.fst := by
  induction m with
  | nil => simp [lookupTime]
  | cons e rest ih =>
    by_cases he : e.1 = p
    · simp [lookupTime, he]
    · simp [lookupTime, he, ih, Ne.symm he]

theorem lookupTime_isSome_of_mem_keys {m : Snapshot} {p : String}
    (h : p ∈ m.map Prod.fst) : ∃ t, lookupTime m p = some t := by
  cases hl : lookupTime m p with
  | none => exact absurd (lookupTime_eq_none.mp hl) (not_not_intro h)
  | some t => exact ⟨t, rfl⟩

theorem mem_keys_iff {m : Snapshot} {p : String} :
    p ∈ m.map Prod.fst ↔ lookupTime m p ≠ none := by
  rw [Ne, lookupTime_eq_none]
  exact not_not.symm

/-- A path is reported by the diff exactly when its lookup differs between the
two snapshots (current snapshot keys distinct, as produced by the `HashMap`). -/
theorem mem_changesBetween {prev curr : Snapshot} (hc : SnapshotKeysDistinct curr)
    {p : String} :
    p ∈ changesBetween prev curr ↔ lookupTime prev p ≠ lookupTime curr p := by
  constructor
  · intro h
    rcases List.mem_append.mp h with h1 | h2
    · obtain ⟨e, he, hefst⟩ := List.mem_map.mp h1
      obtain ⟨hecurr, hech⟩ := List.mem_filter.mp he
      have hcurr : lookupTime curr p = some e.2 := by
        apply mem_lookupTime hc
        have : (e.1, e.2) ∈ curr := by cases e; exact hecurr
        exact hefst ▸ this
      rw [hcurr]
      unfold changedEntry at hech
      cases hl : lookupTime prev e.1 with
      | none =>
        rw [hefst] at hl
        rw [hl]
        simp
      | some t =>
        rw [hl] at hech
        simp only [bne_iff_ne, ne_eq, decide_eq_true_eq] at hech
        rw [hefst] at hl
        rw [hl]
        simpa using hech
    · obtain ⟨hprev, hnone⟩ := List.mem_filter.mp h2
      obtain ⟨t, hlp⟩ := lookupTime_isSome_of_mem_keys hprev
      rw [hlp, Option.isNone_iff_eq_none.mp hnone]
      simp
  · intro hne
    cases hl : lookupTime curr p with
    | some t =>
      refine List.mem_append.mpr (Or.inl (List.mem_map.mpr ⟨(p, t), ?_, rfl⟩))
      refine List.mem_filter.mpr ⟨lookupTime_mem hl, ?_⟩
      rw [hl] at hne
      unfold changedEntry
      cases hlp : lookupTime prev (p, t).1 with
      | none => rfl
      | some t' =>
        have : t' ≠ t := by
          intro hcontra
          exact hne (hcontra ▸ hlp)
        simpa using this
    | none =>
      rw [hl] at hne
      obtain ⟨t, hlp⟩ : ∃ t, lookupTime prev p = some t := by
        cases hlpc : lookupTime prev p with
        | none => exact absurd hlpc hne
        | some t => exact ⟨t, rfl⟩
      refine List.mem_append.mpr (Or.inr (List.mem_filter.mpr ⟨?_, ?_⟩))
      · exact List.mem_map_of_mem Prod.fst (lookupTime_mem hlp)
      · simp [hl]

/-- Lookup disagreement is exactly: present only in one snapshot, or present
in both with different timestamps. -/
theorem lookup_ne_iff_presence (prev curr : Snapshot) (p : String) :
    lookupTime prev p ≠ lookupTime curr p ↔
      ((p ∈ curr.map Prod.fst ∧ p ∉ prev.map Prod.fst) ∨
       (p ∈ prev.map Prod.fst ∧ p ∉ curr.map Prod.fst) ∨
       (∃ t1 t2, lookupTime prev p = some t1 ∧ lookupTime curr p = some t2 ∧
         t1 ≠ t2)) := by
  cases hp : lookupTime prev p <;> cases hc : lookupTime curr p <;>
    simp only [mem_keys_iff, hp, hc] <;> simp

/-- C1: a poll while the detector holds snapshot `prev`, reading fresh
snapshot `curr`, returns `none` exactly when the two snapshots agree on every
path; otherwise `some l` where `l` contains exactly the paths present in only
one snapshot (added or removed) plus those present in both with different
timestamps; and the held snapshot is always replaced by the fresh one. -/
theorem c1_poll_reports_diff (prev curr : Snapshot)
    (hp : SnapshotKeysDistinct prev) (hc : SnapshotKeysDistinct curr) :
    ((FileWatcher.get_changes ⟨prev⟩ curr).1 = none ↔
      ∀ p, lookupTime prev p = lookupTime curr p)
    ∧ (∀ l, (FileWatcher.get_changes ⟨prev⟩ curr).1 = some l →
        ∀ p, p ∈ l ↔
          ((p ∈ curr.map Prod.fst ∧ p ∉ prev.map Prod.fst) ∨
           (p ∈ prev.map Prod.fst ∧ p ∉ curr.map Prod.fst) ∨
           (∃ t1 t2, lookupTime prev p = some t1 ∧ lookupTime curr p = some t2 ∧
             t1 ≠ t2)))
    ∧ (FileWatcher.get_changes ⟨prev⟩ curr).2 = ⟨curr⟩ := by
  refine ⟨?_, ?_, rfl⟩
  · simp only [FileWatcher.get_changes, FileWatcher.check_for_changes]
    cases he : (changesBetween prev curr).isEmpty with
    | true =>
      rw [if_neg (by simp)]
      have hempty : changesBetween prev curr = [] := List.isEmpty_iff.mp he
      constructor
      · intro _ p
        by_contra hne
        have hm : p ∈ changesBetween prev curr := (mem_changesBetween hc).mpr hne
        rw [hempty] at hm
        simp at hm
      · intro _
        rfl
    | false =>
      rw [if_pos rfl]
      constructor
      · intro hcontra
        simp at hcontra
      · intro hall
        exfalso
        have hne : changesBetween prev curr ≠ [] := by
          intro h0
          rw [h0] at he
          simp at he
        obtain ⟨p, hmem⟩ := List.exists_mem_of_ne_nil (changesBetween prev curr) hne
        exact (mem_changesBetween hc).mp hmem (hall p)
  · intro l hl p
    have hl' : l = changesBetween prev curr := by
      simp only [FileWatcher.get_changes, FileWatcher.check_for_changes] at hl
      split at hl
      · exact (Option.some_inj.mp hl).symm
      · exact absurd hl (by simp)
    rw [hl', mem_changesBetween hc, lookup_ne_iff_presence]

/-- Closed instance of `c1_poll_reports_diff` at snapshots
`[("a", 1)]` and `[("a", 2), ("b", 5)]`. -/
theorem c1_poll_reports_diff_witness :
    (((FileWatcher.get_changes ⟨[("a", 1)]⟩ [("a", 2), ("b", 5)]).1 = none ↔
      ∀ p, lookupTime [("a", 1)] p = lookupTime [("a", 2), ("b", 5)] p)
    ∧ (∀ l, (FileWatcher.get_changes ⟨[("a", 1)]⟩ [("a", 2), ("b", 5)]).1 = some l →
        ∀ p, p ∈ l ↔
          ((p ∈ [("a", 2), ("b", 5)].map Prod.fst ∧ p ∉ [("a", 1)].map Prod.fst) ∨
           (p ∈ [("a", 1)].map Prod.fst ∧ p ∉ [("a", 2), ("b", 5)].map Prod.fst) ∨
           (∃ t1 t2, lookupTime [("a", 1)] p = some t1 ∧
             lookupTime [("a", 2), ("b", 5)] p = some t2 ∧ t1 ≠ t2)))
    ∧ (FileWatcher.get_changes ⟨[("a", 1)]⟩ [("a", 2), ("b", 5)]).2 =
        ⟨[("a", 2), ("b", 5)]⟩) :=
  c1_poll_reports_diff [("a", 1)] [("a", 2), ("b", 5)] (by decide) (by decide)

/-- Diffing a snapshot with distinct keys against itself reports nothing. -/
theorem changesBetween_self (m : Snapshot) (hm : SnapshotKeysDistinct m) :
    changesBetween m m = [] := by
  unfold changesBetween
  have h1 : m.filter (changedEntry m) = [] := by
    rw [List.filter_eq_nil]
    intro e he
    have : lookupTime m e.1 = some e.2 := by
      apply mem_lookupTime hm
      cases e
      exact he
    simp [changedEntry, this]
  have h2 : (m.map Prod.fst).filter (fun p => (lookupTime m p).isNone) = [] := by
    rw [List.filter_eq_nil]
    intro p hpm
    obtain ⟨t, ht⟩ := lookupTime_isSome_of_mem_keys hpm
    simp [ht]
  rw [h1, h2]
  rfl

/-- C8: whatever the first poll returned, a second poll with no intervening
filesystem mutation (the fresh snapshot equals the one the first poll read)
returns `none`. -/
theorem c8_second_poll_none (w : FileWatcher) (curr : Snapshot)
    (hc : SnapshotKeysDistinct curr) :
    (FileWatcher.get_changes (FileWatcher.get_changes w curr).2 curr).1 = none := by
  have hrepl : (FileWatcher.get_changes w curr).2 = ⟨curr⟩ := rfl
  rw [hrepl]
  simp only [FileWatcher.get_changes, FileWatcher.check_for_changes]
  rw [changesBetween_self curr hc]
  rfl

/-- Closed instance of `c8_second_poll_none`. -/
theorem c8_second_poll_none_witness :
    (FileWatcher.get_changes
      (FileWatcher.get_changes ⟨[("a", 1)]⟩ [("a", 2), ("b", 5)]).2
      [("a", 2), ("b", 5)]).1 = none :=
  c8_second_poll_none ⟨[("a", 1)]⟩ [("a", 2), ("b", 5)] (by decide)

/-- C9: a returned change set is never empty and never contains a path
twice. -/
theorem c9_changeset_nonempty_nodup (prev curr : Snapshot)
    (hp : SnapshotKeysDistinct prev) (hc : SnapshotKeysDistinct curr)
    (l : List String) (h : (FileWatcher.get_changes ⟨prev⟩ curr).1 = some l) :
    l ≠ [] ∧ l.Nodup := by
  have hl' : l = changesBetween prev curr ∧ (changesBetween prev curr).isEmpty = false := by
    simp only [FileWatcher.get_changes, FileWatcher.check_for_changes] at h
    split at h
    · exact ⟨(Option.some_inj.mp h).symm, by assumption⟩
    · exact absurd h (by simp)
  obtain ⟨rfl, hne⟩ := hl'
  constructor
  · intro h0
    rw [h0] at hne
    simp at hne
  · unfold changesBetween
    rw [List.nodup_append]
    refine ⟨?_, ?_, ?_⟩
    · exact ((List.filter_sublist curr).map Prod.fst).nodup hc
    · exact hp.sublist (List.filter_sublist (prev.map Prod.fst))
    · intro x hx1 hx2
      obtain ⟨hxk, hxnone⟩ := List.mem_filter.mp hx2
      obtain ⟨e, he, hef⟩ := List.mem_map.mp hx1
      have hmem : x ∈ curr.map Prod.fst :=
        hef ▸ List.mem_map_of_mem Prod.fst (List.mem_filter.mp he).1
      exact (lookupTime_eq_none.mp (Option.isNone_iff_eq_none.mp hxnone)) hmem

/-- Closed instance of `c9_changeset_nonempty_nodup`. -/
theorem c9_changeset_nonempty_nodup_witness :
    (["b", "a"] : List String) ≠ [] ∧ (["b", "a"] : List String).Nodup :=
  c9_changeset_nonempty_nodup [("a", 1)] [("b", 5)] (by decide) (by decide)
    ["b", "a"] (by decide)

/-! ## Shader hot-reload and pipeline recreation

Embedding of `check_and_reload_shaders` from
src/little-shader-display/src/main.rs (lines 698–774), modelled at the level
of its observable effects.  A changed path is represented by its filename
string (the code inspects only `path.file_name()`).  GPU objects are modelled
by identity: each `create_shader_module` call yields a fresh module id drawn
from a counter, and the pipeline records the pair of module ids it was
derived from.  The effect trace records, in order, every external-compiler
invocation (`compile_shader(source, target)`), every shader-module creation
(with its label), and every `create_render_pipeline` call. -/

/-- `str.ends_with(suffix)` on filename strings. -/
def strEndsWith (s suffix : String) : Bool := suffix.data.isSuffixOf s.data

inductive Effect where
  | compileShader (source target : String)
  | createShaderModule (label : String)
  | createRenderPipeline (vertexModule fragmentModule : Nat)
  deriving DecidableEq

structure RenderState where
  vertexShader : Nat
  fragmentShader : Nat
  renderPipeline : Nat × Nat
  nextModuleId : Nat
  deriving DecidableEq

/-- One iteration of the `for path in paths` loop: recompile and replace the
vertex module when the filename ends in `.vert`, then likewise the fragment
module for `.frag`, setting the `changed` flag in either case. -/
def reloadStep (vsp cvsp fsp cfsp : String)
    (acc : RenderState × Bool × List Effect) (path : String) :
    RenderState × Bool × List Effect :=
  match acc with
  | (st, changed, effs) =>
    let (st, changed, effs) :=
      if strEndsWith path ".vert" then
        ({ st with
            vertexShader := st.nextModuleId
            nextModuleId := st.nextModuleId + 1 },
         true,
         effs ++ [Effect.compileShader vsp cvsp,
           Effect.createShaderModule "master_vertex_shader"])
      else (st, changed, effs)
    if strEndsWith path ".frag" then
      ({ st with
          fragmentShader := st.nextModuleId
          nextModuleId := st.nextModuleId + 1 },
       true,
       effs ++ [Effect.compileShader fsp cfsp,
         Effect.createShaderModule "master_fragment_shader"])
    else (st, changed, effs)

/-- `check_and_reload_shaders`: with `force` set, recompile both shaders
unconditionally (without polling the watcher); otherwise process each changed
path in order; finally, if anything changed, derive one new pipeline from the
(possibly just-replaced) current modules. -/
def check_and_reload_shaders (changes : Option (List String))
    (vsp cvsp fsp cfsp : String) (st : RenderState) (force : Bool) :
    RenderState × List Effect :=
  let (st1, changed, effs) :=
    if force then
      ({ st with
          vertexShader := st.nextModuleId
          fragmentShader := st.nextModuleId + 1
          nextModuleId := st.nextModuleId + 2 },
       true,
       [Effect.compileShader vsp cvsp,
        Effect.createShaderModule "master_vertex_shader",
        Effect.compileShader fsp cfsp,
        Effect.createShaderModule "master_fragment_shader"])
    else
      match changes with
      | some paths => paths.foldl (reloadStep vsp cvsp fsp cfsp) (st, false, [])
      | none => (st, false, [])
  if changed then
    ({ st1 with renderPipeline := (st1.vertexShader, st1.fragmentShader) },
     effs ++ [Effect.createRenderPipeline st1.vertexShader st1.fragmentShader])
  else (st1, effs)

/-- The fixed list of fragment-shader variants (`SHADER_NAMES` in main.rs). -/
def SHADER_NAMES : List String :=
  ["waves.frag", "mutation.frag", "fractal.frag", "grid.frag", "rings.frag"]

/-- The vertex source path passed at the call site in the main loop:
`shaders_path.join("uncompiled").join("master.vert")`. -/
def vertexSourcePath (shadersPath : String) : String :=
  shadersPath ++ "/uncompiled/master.vert"

/-- The fragment source path passed at the call site in the main loop:
`shaders_path.join("uncompiled").join(SHADER_NAMES[current_shader_index])` —
always the currently selected variant. -/
def selectedFragmentSourcePath (shadersPath : String) (idx : Nat) : String :=
  shadersPath ++ "/uncompiled/" ++ SHADER_NAMES.getD idx ""

def isPipelineRebuild : Effect → Bool
  | Effect.createRenderPipeline _ _ => true
  | _ => false

theorem reloadStep_changed (vsp cvsp fsp cfsp : String)
    (acc : RenderState × Bool × List Effect) (path : String) :
    (reloadStep vsp cvsp fsp cfsp acc path).2.1 =
      (acc.2.1 || (strEndsWith path ".vert" || strEndsWith path ".frag")) := by
  obtain ⟨st, changed, effs⟩ := acc
  cases hv : strEndsWith path ".vert" <;> cases hf : strEndsWith path ".frag" <;>
    simp [reloadStep, hv, hf]

theorem foldl_reloadStep_changed (vsp cvsp fsp cfsp : String) :
    ∀ (paths : List String) (acc : RenderState × Bool × List Effect),
    (paths.foldl (reloadStep vsp cvsp fsp cfsp) acc).2.1 =
      (acc.2.1 || paths.any (fun p => strEndsWith p ".vert" || strEndsWith p ".frag")) := by
  intro paths
  induction paths with
  | nil => simp
  | cons q ps ih =>
    intro acc
    simp only [List.foldl_cons, List.any_cons]
    rw [ih, reloadStep_changed]
    cases acc.2.1 <;> simp

theorem foldl_reloadStep_countP (q : Effect → Bool) (vsp cvsp fsp cfsp : String)
    (perPath : String → Nat)
    (hstep : ∀ acc path, ((reloadStep vsp cvsp fsp cfsp acc path).2.2).countP q =
      (acc.2.2).countP q + perPath path) :
    ∀ (paths : List String) (acc : RenderState × Bool × List Effect),
    ((paths.foldl (reloadStep vsp cvsp fsp cfsp) acc).2.2).countP q =
      (acc.2.2).countP q + (paths.map perPath).sum := by
  intro paths
  induction paths with
  | nil => simp
  | cons p ps ih =>
    intro acc
    simp only [List.foldl_cons, List.map_cons, List.sum_cons]
    rw [ih, hstep]
    omega

theorem sum_map_indicator (q : String → Bool) :
    ∀ paths : List String,
      (paths.map (fun p => if q p then 1 else 0)).sum = paths.countP q := by
  intro paths
  induction paths with
  | nil => rfl
  | cons p ps ih =>
    simp only [List.map_cons, List.sum_cons, List.countP_cons, ih]
    cases hq : q p <;> simp <;> omega

theorem reloadStep_count_vertex_module (vsp cvsp fsp cfsp : String)
    (acc : RenderState × Bool × List Effect) (path : String) :
    ((reloadStep vsp cvsp fsp cfsp acc path).2.2).countP
        (fun e => e == Effect.createShaderModule "master_vertex_shader") =
      (acc.2.2).countP (fun e => e == Effect.createShaderModule "master_vertex_shader") +
        (if strEndsWith path ".vert" then 1 else 0) := by
  obtain ⟨st, changed, effs⟩ := acc
  cases hv : strEndsWith path ".vert" <;> cases hf : strEndsWith path ".frag" <;>
    simp [reloadStep, hv, hf, List.countP_append, List.countP_cons]

theorem reloadStep_count_fragment_module (vsp cvsp fsp cfsp : String)
    (acc : RenderState × Bool × List Effect) (path : String) :
    ((reloadStep vsp cvsp fsp cfsp acc path).2.2).countP
        (fun e => e == Effect.createShaderModule "master_fragment_shader") =
      (acc.2.2).countP (fun e => e == Effect.createShaderModule "master_fragment_shader") +
        (if strEndsWith path ".frag" then 1 else 0) := by
  obtain ⟨st, changed, effs⟩ := acc
  cases hv : strEndsWith path ".vert" <;> cases hf : strEndsWith path ".frag" <;>
    simp [reloadStep, hv, hf, List.countP_append, List.countP_cons]

theorem reloadStep_count_pipeline (vsp cvsp fsp cfsp : String)
    (acc : RenderState × Bool × List Effect) (path : String) :
    ((reloadStep vsp cvsp fsp cfsp acc path).2.2).countP isPipelineRebuild =
      (acc.2.2).countP isPipelineRebuild + 0 := by
  obtain ⟨st, changed, effs⟩ := acc
  cases hv : strEndsWith path ".vert" <;> cases hf : strEndsWith path ".frag" <;>
    simp [reloadStep, hv, hf, List.countP_append, List.countP_cons, isPipelineRebuild]

/-- The non-`force` run of `check_and_reload_shaders`: its effect list is the
loop's effect list, followed by one pipeline creation when anything changed. -/
theorem check_and_reload_effs (paths : List String) (vsp cvsp fsp cfsp : String)
    (st : RenderState) :
    (check_and_reload_shaders (some paths) vsp cvsp fsp cfsp st false).2 =
      (paths.foldl (reloadStep vsp cvsp fsp cfsp) (st, false, [])).2.2 ++
      (if paths.any (fun p => strEndsWith p ".vert" || strEndsWith p ".frag") then
        [Effect.createRenderPipeline
          (paths.foldl (reloadStep vsp cvsp fsp cfsp) (st, false, [])).1.vertexShader
          (paths.foldl (reloadStep vsp cvsp fsp cfsp) (st, false, [])).1.fragmentShader]
       else []) := by
  have hch := foldl_reloadStep_changed vsp cvsp fsp cfsp paths (st, false, [])
  rcases hfl : paths.foldl (reloadStep vsp cvsp fsp cfsp) (st, false, []) with ⟨st1, changed, effs⟩
  rw [hfl] at hch
  simp only [Bool.false_or] at hch
  simp only [check_and_reload_shaders, Bool.false_eq_true, if_neg, hfl]
  cases hany : paths.any (fun p => strEndsWith p ".vert" || strEndsWith p ".frag") with
  | true => rw [hany] at hch; simp [hch]
  | false => rw [hany] at hch; simp [hch]

/-- C4 counterexample: with two changed `.frag` paths in one poll, the code
performs exactly one pipeline rebuild (batched after the loop), not one per
matching path as the claim states. -/
theorem c4_counterexample :
    ¬ (((check_and_reload_shaders (some ["a.frag", "b.frag"]) "master.vert"
          "master.vert.spv" "waves.frag" "master.frag.spv"
          ⟨0, 1, (0, 1), 2⟩ false).2).countP isPipelineRebuild =
        (["a.frag", "b.frag"] : List String).countP
          (fun p => strEndsWith p ".vert" || strEndsWith p ".frag")) := by
  decide

/-- C4 (amended): each matching changed path triggers its own sequential
recompile of the corresponding logical shader (one vertex-module creation per
`.vert` path, one fragment-module creation per `.frag` path), but the
pipeline rebuilds are batched: exactly one pipeline creation occurs in the
iteration when at least one path matches, and none otherwise. -/
theorem c4_sequential_recompiles_single_rebuild (paths : List String)
    (vsp cvsp fsp cfsp : String) (st : RenderState) :
    (((check_and_reload_shaders (some paths) vsp cvsp fsp cfsp st false).2).countP
        (fun e => e == Effect.createShaderModule "master_vertex_shader") =
      paths.countP (fun p => strEndsWith p ".vert"))
    ∧ (((check_and_reload_shaders (some paths) vsp cvsp fsp cfsp st false).2).countP
        (fun e => e == Effect.createShaderModule "master_fragment_shader") =
      paths.countP (fun p => strEndsWith p ".frag"))
    ∧ (((check_and_reload_shaders (some paths) vsp cvsp fsp cfsp st false).2).countP
        isPipelineRebuild =
      if paths.any (fun p => strEndsWith p ".vert" || strEndsWith p ".frag")
      then 1 else 0) := by
  rw [check_and_reload_effs]
  have hv := foldl_reloadStep_countP
    (fun e => e == Effect.createShaderModule "master_vertex_shader") vsp cvsp fsp cfsp
    (fun p => if strEndsWith p ".vert" then 1 else 0)
    (fun acc path => reloadStep_count_vertex_module vsp cvsp fsp cfsp acc path)
    paths (st, false, [])
  have hf := foldl_reloadStep_countP
    (fun e => e == Effect.createShaderModule "master_fragment_shader") vsp cvsp fsp cfsp
    (fun p => if strEndsWith p ".frag" then 1 else 0)
    (fun acc path => reloadStep_count_fragment_module vsp cvsp fsp cfsp acc path)
    paths (st, false, [])
  have hpl := foldl_reloadStep_countP isPipelineRebuild vsp cvsp fsp cfsp
    (fun _ => 0)
    (fun acc path => reloadStep_count_pipeline vsp cvsp fsp cfsp acc path)
    paths (st, false, [])
  rw [sum_map_indicator] at hv hf
  refine ⟨?_, ?_, ?_⟩
  · rw [List.countP_append, hv]
    cases hany : paths.any (fun p => strEndsWith p ".vert" || strEndsWith p ".frag") <;>
      simp
  · rw [List.countP_append, hf]
    cases hany : paths.any (fun p => strEndsWith p ".vert" || strEndsWith p ".frag") <;>
      simp
  · rw [List.countP_append, hpl]
    cases hany : paths.any (fun p => strEndsWith p ".vert" || strEndsWith p ".frag") <;>
      simp [isPipelineRebuild]

theorem reloadStep_mem_mono (vsp cvsp fsp cfsp : String)
    (acc : RenderState × Bool × List Effect) (path : String) (x : Effect)
    (hx : x ∈ acc.2.2) : x ∈ (reloadStep vsp cvsp fsp cfsp acc path).2.2 := by
  obtain ⟨st, changed, effs⟩ := acc
  cases hv : strEndsWith path ".vert" <;> cases hf : strEndsWith path ".frag" <;>
    simp_all [reloadStep, hv, hf]

theorem foldl_reloadStep_mem_mono (vsp cvsp fsp cfsp : String) :
    ∀ (paths : List String) (acc : RenderState × Bool × List Effect) (x : Effect),
    x ∈ acc.2.2 → x ∈ (paths.foldl (reloadStep vsp cvsp fsp cfsp) acc).2.2 := by
  intro paths
  induction paths with
  | nil => intro acc x hx; exact hx
  | cons q ps ih =>
    intro acc x hx
    exact ih _ x (reloadStep_mem_mono vsp cvsp fsp cfsp acc q x hx)

theorem reloadStep_frag_compile_mem (vsp cvsp fsp cfsp : String)
    (acc : RenderState × Bool × List Effect) (path : String)
    (hf : strEndsWith path ".frag" = true) :
    Effect.compileShader fsp cfsp ∈ (reloadStep vsp cvsp fsp cfsp acc path).2.2 := by
  obtain ⟨st, changed, effs⟩ := acc
  cases hv : strEndsWith path ".vert" <;> simp [reloadStep, hv, hf]

theorem foldl_reloadStep_frag_compile_mem (vsp cvsp fsp cfsp : String) :
    ∀ (paths : List String) (acc : RenderState × Bool × List Effect) (p : String),
    p ∈ paths → strEndsWith p ".frag" = true →
    Effect.compileShader fsp cfsp ∈ (paths.foldl (reloadStep vsp cvsp fsp cfsp) acc).2.2 := by
  intro paths
  induction paths with
  | nil => intro acc p hp; simp at hp
  | cons q ps ih =>
    intro acc p hp hfrag
    rcases List.mem_cons.mp hp with rfl | hps
    · exact foldl_reloadStep_mem_mono vsp cvsp fsp cfsp ps _ _
        (reloadStep_frag_compile_mem vsp cvsp fsp cfsp acc p hfrag)
    · exact ih _ p hps hfrag

theorem reloadStep_compile_sources (vsp cvsp fsp cfsp : String)
    (acc : RenderState × Bool × List Effect) (path : String) (s t : String)
    (hx : Effect.compileShader s t ∈ (reloadStep vsp cvsp fsp cfsp acc path).2.2) :
    Effect.compileShader s t ∈ acc.2.2 ∨ (s = vsp ∧ t = cvsp) ∨ (s = fsp ∧ t = cfsp) := by
  obtain ⟨st, changed, effs⟩ := acc
  cases hv : strEndsWith path ".vert" <;> cases hf : strEndsWith path ".frag" <;>
    simp_all [reloadStep, hv, hf] <;> tauto

theorem foldl_reloadStep_compile_sources (vsp cvsp fsp cfsp : String) :
    ∀ (paths : List String) (acc : RenderState × Bool × List Effect) (s t : String),
    Effect.compileShader s t ∈ (paths.foldl (reloadStep vsp cvsp fsp cfsp) acc).2.2 →
    Effect.compileShader s t ∈ acc.2.2 ∨ (s = vsp ∧ t = cvsp) ∨ (s = fsp ∧ t = cfsp) := by
  intro paths
  induction paths with
  | nil => intro acc s t hx; exact Or.inl hx
  | cons q ps ih =>
    intro acc s t hx
    rcases ih _ s t hx with hstep | hrest
    · exact reloadStep_compile_sources vsp cvsp fsp cfsp acc q s t hstep
    · exact Or.inr hrest

/-- C5: when the reload is triggered by changed paths (not `force`), every
changed path ending in `.frag` causes a compilation of the *currently
selected* fragment variant's source — `SHADER_NAMES[current_shader_index]`,
as passed at the call site — regardless of which `.frag` file changed; indeed
the only sources ever handed to the compiler are the fixed vertex source and
the selected variant's source, never the changed path itself. -/
theorem c5_recompiles_selected_variant (shadersPath cvsp cfsp : String)
    (idx : Nat) (st : RenderState) (paths : List String) (p : String)
    (hp : p ∈ paths) (hfrag : strEndsWith p ".frag" = true) :
    Effect.compileShader (selectedFragmentSourcePath shadersPath idx) cfsp ∈
      (check_and_reload_shaders (some paths) (vertexSourcePath shadersPath) cvsp
        (selectedFragmentSourcePath shadersPath idx) cfsp st false).2
    ∧ (∀ s t, Effect.compileShader s t ∈
        (check_and_reload_shaders (some paths) (vertexSourcePath shadersPath) cvsp
          (selectedFragmentSourcePath shadersPath idx) cfsp st false).2 →
        (s = vertexSourcePath shadersPath ∧ t = cvsp) ∨
        (s = selectedFragmentSourcePath shadersPath idx ∧ t = cfsp)) := by
  rw [check_and_reload_effs]
  constructor
  · exact List.mem_append_left _
      (foldl_reloadStep_frag_compile_mem _ cvsp _ cfsp paths (st, false, []) p hp hfrag)
  · intro s t hx
    rcases List.mem_append.mp hx with hfold | hpipe
    · rcases foldl_reloadStep_compile_sources _ cvsp _ cfsp paths (st, false, []) s t hfold with
        hinit | hsrc
      · simp at hinit
      · exact hsrc
    · rcases hif : paths.any (fun q => strEndsWith q ".vert" || strEndsWith q ".frag") with _ | _ <;>
        rw [hif] at hpipe <;> simp at hpipe

/-- Closed instance of `c5_recompiles_selected_variant`: variant 0
(`waves.frag`) is selected, and the changed file is the inactive variant
`mutation.frag`; the compiled source is still `waves.frag`. -/
theorem c5_recompiles_selected_variant_witness :
    Effect.compileShader (selectedFragmentSourcePath "shaders" 0) "master.frag.spv" ∈
      (check_and_reload_shaders (some ["mutation.frag"]) (vertexSourcePath "shaders")
        "master.vert.spv" (selectedFragmentSourcePath "shaders" 0) "master.frag.spv"
        ⟨0, 1, (0, 1), 2⟩ false).2
    ∧ (∀ s t, Effect.compileShader s t ∈
        (check_and_reload_shaders (some ["mutation.frag"]) (vertexSourcePath "shaders")
          "master.vert.spv" (selectedFragmentSourcePath "shaders" 0) "master.frag.spv"
          ⟨0, 1, (0, 1), 2⟩ false).2 →
        (s = vertexSourcePath "shaders" ∧ t = "master.vert.spv") ∨
        (s = selectedFragmentSourcePath "shaders" 0 ∧ t = "master.frag.spv")) :=
  c5_recompiles_selected_variant "shaders" "master.vert.spv" "master.frag.spv" 0
    ⟨0, 1, (0, 1), 2⟩ ["mutation.frag"] "mutation.frag" (by decide) (by decide)

theorem reloadStep_id (vsp cvsp fsp cfsp : String)
    (acc : RenderState × Bool × List Effect) (path : String)
    (hv : strEndsWith path ".vert" = false) (hf : strEndsWith path ".frag" = false) :
    reloadStep vsp cvsp fsp cfsp acc path = acc := by
  obtain ⟨st, changed, effs⟩ := acc
  simp [reloadStep, hv, hf]

theorem foldl_reloadStep_id (vsp cvsp fsp cfsp : String) :
    ∀ (paths : List String),
    (∀ p ∈ paths, strEndsWith p ".vert" = false ∧ strEndsWith p ".frag" = false) →
    ∀ (acc : RenderState × Bool × List Effect),
    paths.foldl (reloadStep vsp cvsp fsp cfsp) acc = acc := by
  intro paths
  induction paths with
  | nil => intro _ acc; rfl
  | cons q ps ih =>
    intro h acc
    obtain ⟨hv, hf⟩ := h q (List.mem_cons_self q ps)
    simp only [List.foldl_cons, reloadStep_id vsp cvsp fsp cfsp acc q hv hf]
    exact ih (fun p hp => h p (List.mem_cons_of_mem q hp)) acc

/-- C10: when `force` is false and either the detector reports no changes or
every reported path ends in neither `.vert` nor `.frag`, the reload leaves the
shader modules and the pipeline exactly as they were, and produces no effects:
no compiler invocation, no module creation, no pipeline creation. -/
theorem c10_noop_without_matching_changes (changes : Option (List String))
    (vsp cvsp fsp cfsp : String) (st : RenderState)
    (h : changes = none ∨ ∃ paths, changes = some paths ∧
      ∀ p ∈ paths, strEndsWith p ".vert" = false ∧ strEndsWith p ".frag" = false) :
    check_and_reload_shaders changes vsp cvsp fsp cfsp st false = (st, []) := by
  rcases h with rfl | ⟨paths, rfl, hall⟩
  · rfl
  · simp only [check_and_reload_shaders, Bool.false_eq_true, if_neg,
      foldl_reloadStep_id vsp cvsp fsp cfsp paths hall (st, false, [])]
    simp

/-- Closed instance of `c10_noop_without_matching_changes`: a reported change
to `notes.txt` leaves the state untouched and produces no effects. -/
theorem c10_noop_without_matching_changes_witness :
    check_and_reload_shaders (some ["notes.txt"]) "master.vert" "master.vert.spv"
      "waves.frag" "master.frag.spv" ⟨0, 1, (0, 1), 2⟩ false =
      (⟨0, 1, (0, 1), 2⟩, []) :=
  c10_noop_without_matching_changes (some ["notes.txt"]) "master.vert"
    "master.vert.spv" "waves.frag" "master.frag.spv" ⟨0, 1, (0, 1), 2⟩
    (Or.inr ⟨["notes.txt"], rfl, by decide⟩)

/-! ## Per-frame status-vector parse

Embedding of step 5 of the main loop (src/little-shader-display/src/main.rs,
lines 360–367; the identical code appears in
`Renderer::update_uniforms`, renderer.rs lines 258–268):

```
uniforms.bluetooth_data = if bluetooth_data.trim().is_empty() {
    [0.0, 0.0, 0.0]
} else {
    bluetooth_data.split(',').map(|s| {
        let v: f32 = s.split(':').nth(1).unwrap().trim().parse().unwrap();
        (v.clamp(-10.0, 10.0)) / 10.0
    }).collect::<Vec<_>>().try_into().unwrap()
};
```

Strings are processed as `List Char`.  An `f32` produced by parsing is
modelled by `F32`: an exact rational for a finite value, or one of the
special parse results `inf`, `-inf`, `nan` that `f32::from_str` also
accepts.  `parseF32` follows the grammar documented for `f32::from_str`
(`Sign? ('inf' | 'infinity' | 'nan' | Number)`, `Number` with an optional
fractional part and an optional `e`/`E` exponent, the special words matched
case-insensitively); `trimChars` strips the Unicode `White_Space` characters
that `str::trim` strips.  Every `unwrap` is a panic point;
`parseStatusVector` returns `none` exactly when one of them panics. -/

/-- Rust `str::split(sep)` on a character separator: `"a,,b"` → three parts,
`""` → one empty part. -/
def splitOnChar (sep : Char) : List Char → List (List Char)
  | [] => [[]]
  | c :: rest =>
    match splitOnChar sep rest with
    | [] => [[]]
    | acc :: accs => if c = sep then [] :: acc :: accs else (c :: acc) :: accs

/-- The Unicode `White_Space` property (U+0009–U+000D, U+0020, U+0085,
U+00A0, U+1680, U+2000–U+200A, U+2028, U+2029, U+202F, U+205F, U+3000),
which is what Rust's `str::trim` strips. -/
def isRustWhitespace (c : Char) : Bool :=
  (0x09 ≤ c.toNat && c.toNat ≤ 0x0D) || c.toNat = 0x20 || c.toNat = 0x85 ||
  c.toNat = 0xA0 || c.toNat = 0x1680 ||
  (0x2000 ≤ c.toNat && c.toNat ≤ 0x200A) ||
  c.toNat = 0x2028 || c.toNat = 0x2029 || c.toNat = 0x202F ||
  c.toNat = 0x205F || c.toNat = 0x3000

/-- Rust `str::trim`: strip `White_Space` characters from both ends. -/
def trimChars (cs : List Char) : List Char :=
  ((cs.dropWhile isRustWhitespace).reverse.dropWhile isRustWhitespace).reverse

def digitsToNat (cs : List Char) : Nat :=
  cs.foldl (fun acc c => acc * 10 + (c.toNat - 48)) 0

/-- An `f32` as produced by `f32::from_str`: a finite value — modelled as the
exact rational the literal denotes (rounding to the nearest `f32`, and
overflow/underflow saturation, are not modelled; on the claims' concrete
inputs the rational and the `f32` computation agree exactly) — or one of the
special parse results. -/
inductive F32 where
  | finite (val : ℚ)
  | inf
  | negInf
  | nan
  deriving DecidableEq

/-- Split a numeric literal at its first exponent marker `e`/`E`: the
mantissa text and, when a marker is present, the exponent text after it. -/
def splitExp : List Char → List Char × Option (List Char)
  | [] => ([], none)
  | c :: rest =>
    if c = 'e' ∨ c = 'E' then ([], some rest)
    else
      match splitExp rest with
      | (m, e) => (c :: m, e)

/-- The `Number` production of the `f32::from_str` grammar, without sign and
exponent: `Count '.'? Count? | '.' Count` (digits required on at least one
side of the dot, at most one dot, ASCII digits only). -/
def parseMantissa (m : List Char) : Option ℚ :=
  match splitOnChar '.' m with
  | [intPart] =>
    if intPart ≠ [] ∧ intPart.all Char.isDigit then
      some (digitsToNat intPart : ℚ)
    else none
  | [intPart, fracPart] =>
    if (intPart ≠ [] ∨ fracPart ≠ []) ∧ intPart.all Char.isDigit ∧
        fracPart.all Char.isDigit then
      some ((digitsToNat intPart : ℚ) +
        (digitsToNat fracPart : ℚ) / ((10 : ℚ) ^ fracPart.length))
    else none
  | _ => none

/-- The `Exp` production `('e' | 'E') Sign? Count`, with the marker already
removed: an optional sign and a non-empty digit string. -/
def parseExp (e : List Char) : Option (Bool × Nat) :=
  let (eneg, d) : Bool × List Char :=
    match e with
    | '-' :: rest => (true, rest)
    | '+' :: rest => (false, rest)
    | _ => (false, e)
  if d ≠ [] ∧ d.all Char.isDigit then some (eneg, digitsToNat d) else none

/-- `str::parse::<f32>` (`f32::from_str`), following its documented grammar
`Float ::= Sign? ('inf' | 'infinity' | 'nan' | Number)` with `Number`
optionally followed by an exponent; the special words match
case-insensitively (ASCII case, as in the source). -/
def parseF32 (s : List Char) : Option F32 :=
  let (neg, t) : Bool × List Char :=
    match s with
    | '-' :: rest => (true, rest)
    | '+' :: rest => (false, rest)
    | _ => (false, s)
  let low := t.map Char.toLower
  if low = "inf".toList ∨ low = "infinity".toList then
    some (if neg then F32.negInf else F32.inf)
  else if low = "nan".toList then some F32.nan
  else
    match splitExp t with
    | (m, eopt) =>
      match parseMantissa m with
      | none => none
      | some q =>
        let signed : ℚ := if neg then -q else q
        match eopt with
        | none => some (F32.finite signed)
        | some etext =>
          match parseExp etext with
          | none => none
          | some (eneg, k) =>
            some (F32.finite (if eneg then signed / ((10 : ℚ) ^ k)
              else signed * ((10 : ℚ) ^ k)))

/-- Rust `f32::clamp(lo, hi)`:
`if self < lo { lo } else if self > hi { hi } else { self }`.  IEEE
comparisons with `nan` are false, so `nan` passes through; `inf` clamps to
`hi` and `-inf` to `lo`. -/
def F32.clamp (lo hi : ℚ) : F32 → F32
  | F32.finite v => F32.finite (if v < lo then lo else if v > hi then hi else v)
  | F32.inf => F32.finite hi
  | F32.negInf => F32.finite lo
  | F32.nan => F32.nan

/-- Division by the finite positive constant `10.0`, as in the closure:
exact on finite values, and `±inf`/`nan` are preserved. -/
def F32.div10 : F32 → F32
  | F32.finite v => F32.finite (v / 10)
  | F32.inf => F32.inf
  | F32.negInf => F32.negInf
  | F32.nan => F32.nan

/-- The closure body
`s.split(':').nth(1).unwrap().trim().parse().unwrap()` followed by
`v.clamp(-10.0, 10.0) / 10.0`; `none` models a panic of either `unwrap`. -/
def parsePair (p : List Char) : Option F32 :=
  match (splitOnChar ':' p)[1]? with
  | none => none
  | some v =>
    match parseF32 (trimChars v) with
    | none => none
    | some q => some (F32.div10 (F32.clamp (-10) 10 q))

/-- `map(...).collect::<Vec<_>>()` where each element's `unwrap` may panic. -/
def collectVals : List (List Char) → Option (List F32)
  | [] => some []
  | p :: ps =>
    match parsePair p with
    | none => none
    | some v =>
      match collectVals ps with
      | none => none
      | some vs => some (v :: vs)

/-- The whole step-5 assignment: zero vector for a blank line, otherwise
parse all comma-separated pairs and require exactly three
(`try_into::<[f32; 3]>`); `none` models a panic. -/
def parseStatusVector (s : List Char) : Option (List F32) :=
  if (trimChars s).isEmpty then some [F32.finite 0, F32.finite 0, F32.finite 0]
  else
    match collectVals (splitOnChar ',' s) with
    | none => none
    | some vals => if vals.length = 3 then some vals else none

/-- The line shape the code accepts without panicking: exactly three
comma-separated parts, each with a parseable `f32` value after its first
colon. -/
def lineWellFormed (s : List Char) : Bool :=
  (splitOnChar ',' s).length == 3 &&
    (splitOnChar ',' s).all (fun p => (parsePair p).isSome)

theorem collectVals_none_iff : ∀ ps : List (List Char),
    collectVals ps = none ↔ ps.all (fun p => (parsePair p).isSome) = false := by
  intro ps
  induction ps with
  | nil => simp [collectVals]
  | cons p rest ih =>
    cases hp : parsePair p with
    | none => simp [collectVals, hp]
    | some v =>
      cases hr : collectVals rest with
      | none =>
        rw [hr] at ih
        simp [collectVals, hp, hr, List.all_cons, ih.mp rfl]
      | some vs =>
        have : ¬ (rest.all (fun p => (parsePair p).isSome) = false) := by
          intro hcontra
          rw [ih.mpr hcontra] at hr
          exact Option.noConfusion hr
        simp only [Bool.not_eq_false] at this
        simp [collectVals, hp, hr, List.all_cons, this]

theorem collectVals_length : ∀ (ps : List (List Char)) (vs : List F32),
    collectVals ps = some vs → vs.length = ps.length := by
  intro ps
  induction ps with
  | nil => intro vs h; simp [collectVals] at h; simp [← h]
  | cons p rest ih =>
    intro vs h
    cases hp : parsePair p with
    | none => rw [collectVals, hp] at h; exact Option.noConfusion h
    | some v =>
      cases hr : collectVals rest with
      | none => rw [collectVals, hp, hr] at h; exact Option.noConfusion h
      | some ws =>
        rw [collectVals, hp, hr] at h
        obtain rfl : v :: ws = vs := Option.some_inj.mp h
        simp [ih ws hr]

/-- C7: for every cached status line that is not blank, the per-frame update
panics (modelled by `none`) exactly when the line is not of the accepted form
— three comma-separated parts each carrying a parseable `f32` value after
its first colon (a missing colon-value, a non-parseable value, or a part
count other than three all panic); the zero-vector fallback fires only when
the whole line is empty or whitespace. -/
theorem c7_malformed_nonblank_line_panics : ∀ s : List Char,
    ((trimChars s).isEmpty = false →
      (parseStatusVector s = none ↔ lineWellFormed s = false))
    ∧ ((trimChars s).isEmpty = true →
      parseStatusVector s = some [F32.finite 0, F32.finite 0, F32.finite 0]) := by
  intro s
  constructor
  · intro hne
    unfold parseStatusVector
    rw [if_neg (by simp [hne])]
    unfold lineWellFormed
    cases hcv : collectVals (splitOnChar ',' s) with
    | none =>
      have hall := (collectVals_none_iff (splitOnChar ',' s)).mp hcv
      simp [hall]
    | some vals =>
      have hlen : vals.length = (splitOnChar ',' s).length :=
        collectVals_length _ _ hcv
      have hall : (splitOnChar ',' s).all (fun p => (parsePair p).isSome) = true := by
        cases hcontra : (splitOnChar ',' s).all (fun p => (parsePair p).isSome) with
        | false =>
          rw [(collectVals_none_iff (splitOnChar ',' s)).mpr hcontra] at hcv
          exact Option.noConfusion hcv
        | true => rfl
      by_cases h3 : vals.length = 3
      · simp [h3, hall, ← hlen]
      · have : ((splitOnChar ',' s).length == 3) = false := by
          rw [← hlen]
          exact beq_false_of_ne h3
        simp [h3, this]
  · intro he
    unfold parseStatusVector
    rw [if_pos he]

/-- Closed instance of `c7_malformed_nonblank_line_panics`: the non-blank
line `"x:abc,y:1,z:2"` (a value that is neither a number nor
`inf`/`infinity`/`nan`) makes the update panic. -/
theorem c7_malformed_nonblank_line_panics_witness :
    parseStatusVector ("x:abc,y:1,z:2".toList) = none :=
  ((c7_malformed_nonblank_line_panics ("x:abc,y:1,z:2".toList)).1 (by rfl)).mpr (by rfl)

/-- C6: the cached text `"x:3,y:-15,z:0"` parses to the status vector
`[0.3, -1.0, 0.0]` (each value clamped to `[-10, 10]`, then divided by 10;
`-15` clamps to `-10`), and the empty string yields the zero vector. -/
theorem c6_status_vector_values :
    parseStatusVector ("x:3,y:-15,z:0".toList) =
      some [F32.finite (3 / 10), F32.finite (-1), F32.finite 0]
    ∧ parseStatusVector ("".toList) =
      some [F32.finite 0, F32.finite 0, F32.finite 0] := by
  constructor
  · with_unfolding_all rfl
  · rfl

/-- Closed instance of `c3_output_length`: a 5-byte input produces
`5 / 4 * 2 = 2` output bytes. -/
theorem c3_output_length_witness :
    (rgba8888_to_rgb565_u8 [1, 2, 3, 4, 5] true).length = [1, 2, 3, 4, 5].length / 4 * 2 :=
  c3_output_length [1, 2, 3, 4, 5] true

/-- Closed instance of `c4_sequential_recompiles_single_rebuild`: one `.vert`
and two `.frag` paths give one vertex recompile, two fragment recompiles and
a single batched pipeline rebuild. -/
theorem c4_sequential_recompiles_single_rebuild_witness :
    (((check_and_reload_shaders (some ["m.vert", "a.frag", "b.frag"]) "v" "cv" "f" "cf"
        ⟨0, 1, (0, 1), 2⟩ false).2).countP
        (fun e => e == Effect.createShaderModule "master_vertex_shader") =
      (["m.vert", "a.frag", "b.frag"] : List String).countP (fun p => strEndsWith p ".vert"))
    ∧ (((check_and_reload_shaders (some ["m.vert", "a.frag", "b.frag"]) "v" "cv" "f" "cf"
        ⟨0, 1, (0, 1), 2⟩ false).2).countP
        (fun e => e == Effect.createShaderModule "master_fragment_shader") =
      (["m.vert", "a.frag", "b.frag"] : List String).countP (fun p => strEndsWith p ".frag"))
    ∧ (((check_and_reload_shaders (some ["m.vert", "a.frag", "b.frag"]) "v" "cv" "f" "cf"
        ⟨0, 1, (0, 1), 2⟩ false).2).countP isPipelineRebuild =
      if (["m.vert", "a.frag", "b.frag"] : List String).any
          (fun p => strEndsWith p ".vert" || strEndsWith p ".frag")
      then 1 else 0) :=
  c4_sequential_recompiles_single_rebuild ["m.vert", "a.frag", "b.frag"] "v" "cv" "f" "cf"
    ⟨0, 1, (0, 1), 2⟩
